import Mathlib

/-!
Shallow embedding of the headache-tracking application (`app.py` and its
near-duplicate `app copy.py`, here called `part000`).

Conventions of the embedding:
  * Python strings are `List Char`.
  * Python `datetime` values are integer seconds (a `datetime.combine(date, time)`
    is `day * 86400 + secondsOfDay`); subtraction of datetimes gives seconds, and
    `timedelta.total_seconds() / 60` is exact rational arithmetic (inputs come from
    minute-granular widgets, where float arithmetic is exact as well), so the float
    `total_minutes` is modelled as `ℚ`.
  * Fallible Python operations (`int(...)`, list indexing, `df.drop`) are
    `Option`/`Except`.
All definitions are fuel-free structural or fuel-based recursions so that they
reduce inside the kernel (`decide`/`rfl` on concrete inputs).
-/

namespace Headache

/-! ### Python string primitives -/

/-- Decimal digit characters, as produced by Python `str` on integers. -/
def digitChar : Nat → Char
  | 0 => '0'
  | 1 => '1'
  | 2 => '2'
  | 3 => '3'
  | 4 => '4'
  | 5 => '5'
  | 6 => '6'
  | 7 => '7'
  | 8 => '8'
  | 9 => '9'
  | _ => '!'

/-- Value of an ASCII decimal digit character, `none` on a non-digit
(the failure branch of Python `int(...)`). -/
def digitVal (c : Char) : Option Nat :=
  if '0' ≤ c ∧ c ≤ '9' then some (c.toNat - 48) else none

/-- Accumulating decimal parse of a digit string, most significant digit first. -/
def parseNatAux : List Char → Nat → Option Nat
  | [], acc => some acc
  | c :: cs, acc =>
    match digitVal c with
    | some d => parseNatAux cs (10 * acc + d)
    | none => none

/-- Parse of a nonempty all-digit string; `none` mirrors the `ValueError` raised
by Python `int('')` or `int` applied to a non-digit string. -/
def parseNat : List Char → Option Nat
  | [] => none
  | l => parseNatAux l 0

/-- Python `int(s)` on a decimal string with an optional sign. -/
def parseInt : List Char → Option Int
  | [] => none
  | c :: cs =>
    if c = '-' then (parseNat cs).map (fun n => -(n : Int))
    else if c = '+' then (parseNat cs).map (fun n => (n : Int))
    else (parseNat (c :: cs)).map (fun n => (n : Int))

/-- Fuel-based decimal digits of a natural number, least significant digit
peeled off into the accumulator; fuel `n + 1` always suffices. -/
def natToCharsAux : Nat → Nat → List Char → List Char
  | 0, _, acc => acc
  | fuel + 1, n, acc =>
    let acc' := digitChar (n % 10) :: acc
    if n / 10 = 0 then acc' else natToCharsAux fuel (n / 10) acc'

/-- Decimal representation of a natural number, as Python `str`. -/
def natToChars (n : Nat) : List Char := natToCharsAux (n + 1) n []

/-- Python `str` of an `int`: a minus sign followed by digits for negatives. -/
def intRepr (i : Int) : List Char :=
  if i < 0 then '-' :: natToChars i.natAbs else natToChars i.toNat

/-- Fuel-based worker for Python `s.split(sep)` with a nonempty separator:
scan left to right, cutting at each non-overlapping occurrence of `sep`.
Fuel `s.length + 1` always suffices. -/
def pysplitAux (sep : List Char) : Nat → List Char → List Char → List (List Char)
  | 0, s, cur => [cur.reverse ++ s]
  | fuel + 1, s, cur =>
    match s with
    | [] => [cur.reverse]
    | c :: cs =>
      if sep ≠ [] ∧ sep.isPrefixOf (c :: cs) then
        cur.reverse :: pysplitAux sep fuel (List.drop sep.length (c :: cs)) []
      else
        pysplitAux sep fuel cs (c :: cur)

/-- Python `s.split(sep)` for a nonempty separator `sep`. -/
def pysplit (sep s : List Char) : List (List Char) := pysplitAux sep (s.length + 1) s []

/-- Python `sep.join(parts)`. -/
def joinSep (sep : List Char) : List (List Char) → List Char
  | [] => []
  | [p] => p
  | p :: q :: ps => p ++ sep ++ joinSep sep (q :: ps)

/-- Python `s.replace(old, new)` for nonempty `old`, which equals
`new.join(s.split(old))`. The source only uses it with `new = ''`. -/
def pyReplace (old new s : List Char) : List Char := joinSep new (pysplit old s)

/-! ### Duration calculator (`calculate_duration`, identical in both files) -/

/-- Python `int()` applied to a real number: truncation toward zero. -/
def pyint (q : ℚ) : Int := if q < 0 then ⌈q⌉ else ⌊q⌋

/-- The characters `小时` separating the hour part of a duration label. -/
def hourMarker : List Char := "小时".toList

/-- The characters `分钟` ending a duration label. -/
def minuteMarker : List Char := "分钟".toList

/-- `calculate_duration(start_time, end_time)` from `app.py` lines 19–23 (identical
in `part000` lines 20–24): `total_minutes = (end - start).total_seconds() / 60`,
`hours, minutes = divmod(total_minutes, 60)` (float floor division and modulus),
label `f"{int(hours)}小时{int(minutes)}分钟"`. Datetimes are integer seconds. -/
def calculate_duration (start_time end_time : Int) : List Char × ℚ :=
  let total_minutes : ℚ := ((end_time - start_time : Int) : ℚ) / 60
  let hours : ℚ := (⌊total_minutes / 60⌋ : ℚ)
  let minutes : ℚ := total_minutes - 60 * hours
  (intRepr (pyint hours) ++ hourMarker ++ intRepr (pyint minutes) ++ minuteMarker,
   total_minutes)

/-- The aggregator's inverse parse of a duration label, the lambda of `app.py`
line 150: `int(x.split('小时')[0]) * 60 + int(x.split('小时')[1].replace('分钟', ''))`.
`none` mirrors the `IndexError`/`ValueError` raised on a malformed label. -/
def durationMinutes (x : List Char) : Option Int :=
  let parts := pysplit hourMarker x
  match parts[0]?, parts[1]? with
  | some p0, some p1 =>
    match parseInt p0, parseInt (pyReplace minuteMarker [] p1) with
    | some h, some m => some (h * 60 + m)
    | _, _ => none
  | _, _ => none

/-! ### Records and the create/delete handlers -/

/-- Python `datetime.combine(date, time)`: the date (in days) and the
time-of-day (in seconds) merged into one timestamp in seconds. -/
def datetimeCombine (day secondsOfDay : Int) : Int := day * 86400 + secondsOfDay

/-- One row of `app.py`'s table: the eight columns built by the submit handler
(line 58). Start/End times are kept as timestamps in seconds. -/
structure Record where
  date : Int
  startTime : Int
  endTime : Int
  duration : List Char
  severity : Int
  remarks : List Char
  location : List Char
  totalMinutes : ℚ
deriving DecidableEq

/-- One row of `part000`'s table: seven columns, no `Total Minutes`
(`part000` line 47). -/
structure Record000 where
  date : Int
  startTime : Int
  endTime : Int
  duration : List Char
  severity : Int
  remarks : List Char
  location : List Char
deriving DecidableEq

/-- Observable outcome of a submit in `app.py`: success toast or the
`'结束时间不能早于开始时间'` validation error. -/
inductive SubmitOutcome where
  | recordAdded
  | validationError
deriving DecidableEq

/-- The `headache_form` submit handler of `app.py` lines 49–63: combine the date
with both times, reject when `start_datetime > end_datetime`, otherwise compute
the duration, append the new record and save. The widgets guarantee the fields
are present, so the missing-field branch cannot fire. -/
def headache_form_submit (store : List Record) (date startT endT severity : Int)
    (remarks location : List Char) : List Record × SubmitOutcome :=
  let start_datetime := datetimeCombine date startT
  let end_datetime := datetimeCombine date endT
  if start_datetime > end_datetime then
    (store, .validationError)
  else
    let r := calculate_duration start_datetime end_datetime
    (store ++ [⟨date, start_datetime, end_datetime, r.1, severity, remarks, location, r.2⟩],
     .recordAdded)

/-- The `headache_form` submit handler of `part000` lines 40–50: no ordering
check at all; the duration is computed and the record appended unconditionally.
`location` is a multiselect, joined with `', '` (or the `'未选择'` sentinel). -/
def part000_submit (store : List Record000) (date startT endT severity : Int)
    (remarks : List Char) (location : List (List Char)) : List Record000 :=
  let start_datetime := datetimeCombine date startT
  let end_datetime := datetimeCombine date endT
  let r := calculate_duration start_datetime end_datetime
  let location_str := if location ≠ [] then joinSep ", ".toList location else "未选择".toList
  store ++ [⟨date, start_datetime, end_datetime, r.1, severity, remarks, location_str⟩]

/-- The `KeyError` pandas `DataFrame.drop` raises on a label absent from the
index. -/
inductive DropError where
  | keyError
deriving DecidableEq

/-- `data.drop(record_to_delete).reset_index(drop=True)` of `app.py` line 75 on
a freshly loaded frame (contiguous positional index `0..n-1`): remove row `i`
and re-pack, or fail with `KeyError` when `i` is not a valid index. -/
def drop_reset_index {α : Type} (data : List α) (i : Nat) : Except DropError (List α) :=
  if i < data.length then .ok (data.take i ++ data.drop (i + 1)) else .error .keyError

/-- The delete-record handler of `app.py` lines 74–78: on a valid index the
dropped frame is saved; a raised `KeyError` aborts before `save_data`, leaving
the persisted set unchanged. -/
def delete_record {α : Type} (data : List α) (i : Nat) : List α :=
  match drop_reset_index data i with
  | .ok d => d
  | .error _ => data

/-! ### Aggregator reports -/

/-- Data behind chart 1 (`app.py` lines 111–119): the `(Date, Severity)` pairs
of the loaded records, one per row, in row order; no grouping is applied. -/
def severitySeries (store : List Record) : List (Int × Int) :=
  store.map fun r => (r.date, r.severity)

/-- The location explode of `app.py` line 182:
`data['Location'].apply(lambda loc: loc.split(', ')).explode()`. -/
def locationExplode (store : List Record) : List (List Char) :=
  (store.map fun r => pysplit ", ".toList r.location).flatten

/-- One bucket count of the location distribution (`value_counts` of the
exploded labels, `app.py` line 183). -/
def locationCount (store : List Record) (lbl : List Char) : Nat :=
  (locationExplode store).count lbl

/-- The bucket assignment of `pd.cut(minutes, bins=[0, 30, 60, 120, inf],
labels=..., right=False)` (`app.py` lines 151–153): half-open intervals, left
edge included; a value outside every interval (negative minutes) gets no
bucket (`NaN`). -/
def durationBin (m : Int) : Option (List Char) :=
  if 0 ≤ m ∧ m < 30 then some "0-30分钟".toList
  else if 30 ≤ m ∧ m < 60 then some "30-60分钟".toList
  else if 60 ≤ m ∧ m < 120 then some "60-120分钟".toList
  else if 120 ≤ m then some "120分钟以上".toList
  else none

/-- The `Duration Bin` cell of one record: minutes re-derived from the label by
the inverse parse (`app.py` line 150), then bucketed (line 153). -/
def recordDurationBin (r : Record) : Option (List Char) :=
  (durationMinutes r.duration).bind durationBin

/-- One bucket count of the duration-bin report (`value_counts` of the
`Duration Bin` column, `app.py` line 154). -/
def durationBinCount (store : List Record) (lbl : List Char) : Nat :=
  (store.filter fun r => recordDurationBin r = some lbl).length

/-- The four fixed bucket labels of the duration histogram (`app.py` line 152). -/
def binLabels : List (List Char) :=
  ["0-30分钟".toList, "30-60分钟".toList, "60-120分钟".toList, "120分钟以上".toList]

/-! ### Record store: CSV persistence

`save_data` is `data.to_csv('headache_data.csv', index=False, encoding='utf-8-sig')`
and `load_data` is `pd.read_csv('headache_data.csv')` with the `FileNotFoundError`
fallback. The model has two layers. The text layer is the CSV byte stream: a
header row of column names followed by one stringified row per record; `to_csv`
uses minimal quoting (a cell is wrapped in double quotes, with inner quotes
doubled, exactly when it contains a separator, quote or line break), terminates
each row with `'\n'`, and prefixes the UTF-8 byte-order mark; the textual parse
undoes all of this, skipping blank lines. The value layer is what the program
actually holds in memory: `to_csv` stringifies cell values, and `read_csv` (run
with all defaults) applies its missing-value filter (default `na_values`,
including the empty field and `NA`) and column-wise dtype inference
(`int64` / `float64` / `object`) on top of the textual parse, so a reloaded
cell is in general NOT the saved text. -/

/-- Does `to_csv` have to quote this cell? (csv `QUOTE_MINIMAL`). -/
def needsQuote (cell : List Char) : Bool :=
  cell.any fun c => c = ',' ∨ c = '"' ∨ c = '\n' ∨ c = '\r'

/-- Double every quote character (csv escaping inside a quoted cell). -/
def escapeQuotes : List Char → List Char
  | [] => []
  | c :: cs => if c = '"' then '"' :: '"' :: escapeQuotes cs else c :: escapeQuotes cs

/-- One serialized CSV cell. -/
def encodeCell (cell : List Char) : List Char :=
  if needsQuote cell then '"' :: (escapeQuotes cell ++ ['"']) else cell

/-- One serialized CSV row: cells joined by the comma separator. -/
def encodeRow (row : List (List Char)) : List Char :=
  joinSep [','] (row.map encodeCell)

/-- A serialized CSV table: each row terminated by a newline. -/
def csvEncode (rows : List (List (List Char))) : List Char :=
  (rows.map fun r => encodeRow r ++ ['\n']).flatten

/-- Parse one unquoted cell: everything up to the next separator or row end. -/
def parseUnquoted : List Char → List Char × List Char
  | [] => ([], [])
  | c :: cs =>
    if c = ',' ∨ c = '\n' then ([], c :: cs)
    else
      let p := parseUnquoted cs
      (c :: p.1, p.2)

/-- Parse the remainder of a quoted cell (after the opening quote): a doubled
quote is a literal quote, a single quote closes the cell. -/
def parseQuoted : List Char → List Char × List Char
  | [] => ([], [])
  | c :: cs =>
    if c = '"' then
      match cs with
      | [] => ([], [])
      | c2 :: cs' =>
        if c2 = '"' then
          let p := parseQuoted cs'
          ('"' :: p.1, p.2)
        else ([], cs)
    else
      let p := parseQuoted cs
      (c :: p.1, p.2)

/-- Parse one CSV cell, choosing the quoted or unquoted form. -/
def parseField : List Char → List Char × List Char
  | [] => ([], [])
  | c :: cs => if c = '"' then parseQuoted cs else parseUnquoted (c :: cs)

/-- Parse one CSV row: cells separated by commas, ended by a newline or the end
of input. Fuel `cellCount` of the row always suffices; on exhausted fuel the
remaining input is left unread (unreachable for encoder output). -/
def parseRowAux : Nat → List Char → List (List Char) × List Char
  | 0, s => ([], s)
  | fuel + 1, s =>
    let p := parseField s
    match p.2 with
    | [] => ([p.1], [])
    | c :: r' =>
      if c = ',' then
        let q := parseRowAux fuel r'
        (p.1 :: q.1, q.2)
      else ([p.1], r')

/-- Parse a CSV table: one row per line, blank lines skipped
(`read_csv` default `skip_blank_lines=True`). Fuel `rowCount` suffices. -/
def parseRowsAux : Nat → List Char → List (List (List Char))
  | 0, _ => []
  | fuel + 1, s =>
    match s with
    | [] => []
    | c :: cs =>
      let p := parseRowAux ((c :: cs).length + 1) (c :: cs)
      if p.1 = [[]] then parseRowsAux fuel p.2 else p.1 :: parseRowsAux fuel p.2

/-- Parse a whole CSV text. -/
def csvParse (s : List Char) : List (List (List Char)) := parseRowsAux (s.length + 1) s

/-- The UTF-8 byte-order mark written by `encoding='utf-8-sig'`. -/
def bomChar : Char := '\uFEFF'

/-- Strip a leading byte-order mark, as `read_csv`'s parser does. -/
def dropBom : List Char → List Char
  | [] => []
  | c :: cs => if c = bomChar then cs else c :: cs

/-- One in-memory pandas cell value: a string, an `int64`, a `float64`
(modelled as the exact rational the decimal text denotes), or `NaN`. -/
inductive CellValue where
  | str (s : List Char)
  | intVal (n : Int)
  | floatVal (q : ℚ)
  | nan
deriving DecidableEq

/-- Digits of the fractional part `num / den` (with `num < den`), most
significant first, stopping at an exact zero remainder or at the fuel bound. -/
def fracDigitsAux : Nat → Nat → Nat → List Char
  | 0, _, _ => []
  | fuel + 1, num, den =>
    if num = 0 then []
    else digitChar (num * 10 / den) :: fracDigitsAux fuel (num * 10 % den) den

/-- The text `to_csv` writes for a `float64` value: integer part, decimal
point, fractional digits (`.0` for a whole number, e.g. `90.0`). -/
def floatRepr (q : ℚ) : List Char :=
  let sign := if q < 0 then ['-'] else []
  let n := q.num.natAbs
  let d := q.den
  let frac := fracDigitsAux 30 (n % d) d
  sign ++ natToChars (n / d) ++ '.' :: (if frac = [] then ['0'] else frac)

/-- The text `to_csv` writes for one cell: strings verbatim, `str()` of
integers, the decimal form of floats, and the empty field for `NaN`
(default `na_rep=''`). -/
def cellWrite : CellValue → List Char
  | .str s => s
  | .intVal n => intRepr n
  | .floatVal q => floatRepr q
  | .nan => []

/-- The default `na_values` sentinel strings of `pd.read_csv`: these cell
texts (and the empty field) are read back as `NaN`. -/
def naStrings : List (List Char) :=
  ["".toList, "#N/A".toList, "#N/A N/A".toList, "#NA".toList, "-1.#IND".toList,
   "-1.#QNAN".toList, "-NaN".toList, "-nan".toList, "1.#IND".toList,
   "1.#QNAN".toList, "<NA>".toList, "N/A".toList, "NA".toList, "NULL".toList,
   "NaN".toList, "None".toList, "n/a".toList, "nan".toList, "null".toList]

/-- Is this cell text one of `read_csv`'s default missing-value sentinels? -/
def isNa (c : List Char) : Bool := naStrings.contains c

/-- Leading run of decimal digits: accumulated value, digit count, rest. -/
def takeDigitsAux : List Char → Nat → Nat → Nat × Nat × List Char
  | [], v, k => (v, k, [])
  | c :: cs, v, k =>
    match digitVal c with
    | some d => takeDigitsAux cs (10 * v + d) (k + 1)
    | none => (v, k, c :: cs)

/-- The numeric cell texts `read_csv`'s parser reads as `float64`: an optional
sign, decimal digits with an optional fractional part (at least one digit in
total), and an optional exponent. Special spellings such as `inf` are left to
the text path, which no claim exercises. -/
def parseFloat (s : List Char) : Option ℚ :=
  let sgnRest : ℚ × List Char :=
    match s with
    | '-' :: r => (-1, r)
    | '+' :: r => (1, r)
    | r => (1, r)
  let ipart := takeDigitsAux sgnRest.2 0 0
  let fpart : Nat × Nat × List Char :=
    match ipart.2.2 with
    | '.' :: r => takeDigitsAux r 0 0
    | r => (0, 0, r)
  if ipart.2.1 + fpart.2.1 = 0 then none
  else
    let mantissa : ℚ := (ipart.1 : ℚ) + (fpart.1 : ℚ) / (10 : ℚ) ^ fpart.2.1
    match fpart.2.2 with
    | [] => some (sgnRest.1 * mantissa)
    | e :: r =>
      if e = 'e' ∨ e = 'E' then
        let esgnRest : Int × List Char :=
          match r with
          | '-' :: r' => (-1, r')
          | '+' :: r' => (1, r')
          | r' => (1, r')
        let epart := takeDigitsAux esgnRest.2 0 0
        if epart.2.1 = 0 ∨ epart.2.2 ≠ [] then none
        else some (sgnRest.1 * mantissa * (10 : ℚ) ^ (esgnRest.1 * epart.1))
      else none

/-- The dtype `read_csv` infers for one column of cell texts: `int64` when
every cell is an integer literal (a missing value forbids this), else
`float64` when every cell is numeric or missing, else `object`. -/
inductive ColType where
  | intCol
  | floatCol
  | objCol
deriving DecidableEq

/-- Column-wise dtype inference of `read_csv` over the data rows. -/
def inferColType (cells : List (List Char)) : ColType :=
  if cells.all fun c => (parseInt c).isSome then .intCol
  else if cells.all fun c => isNa c || (parseFloat c).isSome then .floatCol
  else .objCol

/-- The in-memory value `read_csv` gives one cell text under its column's
inferred dtype: missing-value sentinels become `NaN`, numeric columns hold
numbers, object columns keep the text. -/
def convertCell (t : ColType) (c : List Char) : CellValue :=
  match t with
  | .intCol =>
    match parseInt c with
    | some n => .intVal n
    | none => .nan
  | .floatCol =>
    if isNa c then .nan
    else
      match parseFloat c with
      | some q => .floatVal q
      | none => .nan
  | .objCol => if isNa c then .nan else .str c

/-- The `j`-th column of a parsed table. -/
def columnOf (rows : List (List (List Char))) (j : Nat) : List (List Char) :=
  rows.filterMap fun r => r[j]?

/-- The NA-and-dtype conversion `read_csv` applies on top of the textual CSV
parse: every cell is interpreted under its column's inferred dtype. -/
def readValues (rows : List (List (List Char))) : List (List CellValue) :=
  rows.map fun r => r.mapIdx fun j c => convertCell (inferColType (columnOf rows j)) c

/-- A loaded pandas table: column names plus rows of cell values. -/
structure DataFrame where
  columns : List (List Char)
  rows : List (List CellValue)
deriving DecidableEq

/-- `pd.read_csv` on an empty file raises `pandas.errors.EmptyDataError`, which
`load_data`'s `except FileNotFoundError` does not catch. -/
inductive LoadError where
  | emptyData
deriving DecidableEq

/-- The canonical eight-column schema of `app.py` line 11 / line 59. -/
def canonicalColumns : List (List Char) :=
  ["Date".toList, "Start Time".toList, "End Time".toList, "Duration".toList,
   "Severity".toList, "Remarks".toList, "Location".toList, "Total Minutes".toList]

/-- The seven-column schema of `part000` line 12: no `Total Minutes`. -/
def part000Columns : List (List Char) :=
  ["Date".toList, "Start Time".toList, "End Time".toList, "Duration".toList,
   "Severity".toList, "Remarks".toList, "Location".toList]

/-- `save_data(data)` of `app.py` lines 15–16: the full table (header row plus
the stringified data rows) written as UTF-8 CSV with a byte-order mark. -/
def save_data (df : DataFrame) : List Char :=
  bomChar :: csvEncode (df.columns :: df.rows.map (List.map cellWrite))

/-- `load_data()` of `app.py` lines 7–12: a missing file (`none`) yields the
empty table with the canonical columns; otherwise the file is parsed, the first
row becoming the header and the data rows passing through `read_csv`'s
NA-and-dtype conversion. -/
def load_data (file : Option (List Char)) : Except LoadError DataFrame :=
  match file with
  | none => .ok ⟨canonicalColumns, []⟩
  | some s =>
    match csvParse (dropBom s) with
    | [] => .error .emptyData
    | header :: rest => .ok ⟨header, readValues rest⟩

/-- `load_data()` of `part000` lines 8–13: identical, but the empty fallback
frame carries only the seven-column schema. -/
def part000_load_data (file : Option (List Char)) : Except LoadError DataFrame :=
  match file with
  | none => .ok ⟨part000Columns, []⟩
  | some s =>
    match csvParse (dropBom s) with
    | [] => .error .emptyData
    | header :: rest => .ok ⟨header, readValues rest⟩

/-! ### Basic facts about the duration calculator's arithmetic -/

theorem pyint_intCast (z : ℤ) : pyint (z : ℚ) = z := by
  unfold pyint
  split <;> simp

theorem minutes_nonneg (q : ℚ) : 0 ≤ q - 60 * (⌊q / 60⌋ : ℚ) := by
  have h : (⌊q / 60⌋ : ℚ) ≤ q / 60 := Int.floor_le _
  have h2 : 60 * (q / 60) = q := by ring
  linarith

theorem minutes_lt_sixty (q : ℚ) : q - 60 * (⌊q / 60⌋ : ℚ) < 60 := by
  have h : q / 60 < ⌊q / 60⌋ + 1 := Int.lt_floor_add_one _
  have h2 : 60 * (q / 60) = q := by ring
  linarith

theorem pyint_minutes (q : ℚ) : pyint (q - 60 * (⌊q / 60⌋ : ℚ)) = ⌊q⌋ - 60 * ⌊q / 60⌋ := by
  unfold pyint
  rw [if_neg (not_lt.2 (minutes_nonneg q))]
  have h : q - 60 * (⌊q / 60⌋ : ℚ) = q - ((60 * ⌊q / 60⌋ : ℤ) : ℚ) := by push_cast; ring
  rw [h, Int.floor_sub_int]

theorem floor_int_div_sixty (t : ℤ) : ⌊(t : ℚ) / 60⌋ = t / 60 := by
  have h : ((60 : ℕ) : ℚ) = (60 : ℚ) := by norm_num
  rw [← h, Rat.floor_intCast_div_natCast]
  norm_num

theorem floor_tm_div_sixty (t : ℤ) : ⌊(t : ℚ) / 60 / 60⌋ = t / 3600 := by
  have h : (t : ℚ) / 60 / 60 = (t : ℚ) / ((3600 : ℕ) : ℚ) := by push_cast; ring
  rw [h, Rat.floor_intCast_div_natCast]
  norm_num

/-- Integer-level characterization of `calculate_duration`: the label shows
`(end - start) / 3600` hours (floor division) and the remaining floored minutes,
and `total_minutes` is the exact rational `(end - start) / 60`. -/
theorem calculate_duration_eq (s e : ℤ) :
    calculate_duration s e =
      (intRepr ((e - s) / 3600) ++ hourMarker ++
         intRepr ((e - s) / 60 - 60 * ((e - s) / 3600)) ++ minuteMarker,
       ((e - s : ℤ) : ℚ) / 60) := by
  unfold calculate_duration
  have hh : pyint ((⌊((e - s : ℤ) : ℚ) / 60 / 60⌋ : ℚ)) = (e - s) / 3600 := by
    rw [pyint_intCast, floor_tm_div_sixty]
  have hm : pyint (((e - s : ℤ) : ℚ) / 60 - 60 * (⌊((e - s : ℤ) : ℚ) / 60 / 60⌋ : ℚ)) =
      (e - s) / 60 - 60 * ((e - s) / 3600) := by
    have h := pyint_minutes (((e - s : ℤ) : ℚ) / 60)
    rw [h, floor_int_div_sixty, floor_tm_div_sixty]
  simp only [hh, hm]

/-! ### Decimal representation and parse round-trip -/

theorem digitChar_bounds (d : Nat) (h : d < 10) :
    '0' ≤ digitChar d ∧ digitChar d ≤ '9' := by
  interval_cases d <;> decide

theorem digitVal_digitChar (d : Nat) (h : d < 10) : digitVal (digitChar d) = some d := by
  interval_cases d <;> decide

theorem natToCharsAux_digits :
    ∀ (fuel n : Nat) (acc : List Char), (∀ c ∈ acc, '0' ≤ c ∧ c ≤ '9') →
      ∀ c ∈ natToCharsAux fuel n acc, '0' ≤ c ∧ c ≤ '9' := by
  intro fuel
  induction fuel with
  | zero => intro n acc hacc c hc; exact hacc c hc
  | succ fuel ih =>
    intro n acc hacc c hc
    have hd : ∀ c' ∈ digitChar (n % 10) :: acc, '0' ≤ c' ∧ c' ≤ '9' := by
      intro c' hc'
      rcases List.mem_cons.1 hc' with h | h
      · subst h; exact digitChar_bounds _ (Nat.mod_lt _ (by norm_num))
      · exact hacc c' h
    rw [natToCharsAux] at hc
    split at hc
    · exact hd c hc
    · exact ih (n / 10) _ hd c hc

theorem natToChars_digits (n : Nat) : ∀ c ∈ natToChars n, '0' ≤ c ∧ c ≤ '9' :=
  natToCharsAux_digits (n + 1) n [] (by simp)

theorem natToCharsAux_ne_nil :
    ∀ (fuel n : Nat) (acc : List Char), 0 < fuel ∨ acc ≠ [] →
      natToCharsAux fuel n acc ≠ [] := by
  intro fuel
  induction fuel with
  | zero =>
    intro n acc h
    rcases h with h | h
    · omega
    · simpa [natToCharsAux] using h
  | succ fuel ih =>
    intro n acc _
    rw [natToCharsAux]
    split
    · simp
    · exact ih (n / 10) _ (Or.inr (by simp))

theorem natToChars_ne_nil (n : Nat) : natToChars n ≠ [] :=
  natToCharsAux_ne_nil (n + 1) n [] (Or.inl (by omega))

theorem parseNatAux_natToCharsAux :
    ∀ (fuel n : Nat), n < fuel → ∀ (acc : List Char) (v : Nat),
      ∃ k, parseNatAux (natToCharsAux fuel n acc) v = parseNatAux acc (v * 10 ^ k + n) := by
  intro fuel
  induction fuel with
  | zero => omega
  | succ fuel ih =>
    intro n hn acc v
    rw [natToCharsAux]
    split
    · refine ⟨1, ?_⟩
      rw [parseNatAux, digitVal_digitChar _ (Nat.mod_lt _ (by norm_num))]
      have : n % 10 = n := by omega
      rw [this]
      ring_nf
    · have hq : n / 10 < fuel := by omega
      obtain ⟨k, hk⟩ := ih (n / 10) hq (digitChar (n % 10) :: acc) v
      refine ⟨k + 1, ?_⟩
      rw [hk, parseNatAux, digitVal_digitChar _ (Nat.mod_lt _ (by norm_num))]
      have harith : 10 * (v * 10 ^ k + n / 10) + n % 10 = v * 10 ^ (k + 1) + n := by
        have := Nat.div_add_mod n 10
        ring_nf
        omega
      show parseNatAux acc (10 * (v * 10 ^ k + n / 10) + n % 10) =
        parseNatAux acc (v * 10 ^ (k + 1) + n)
      rw [harith]

theorem parseNat_natToChars (n : Nat) : parseNat (natToChars n) = some n := by
  obtain ⟨c, cs, hcons⟩ := List.exists_cons_of_ne_nil (natToChars_ne_nil n)
  obtain ⟨k, hk⟩ := parseNatAux_natToCharsAux (n + 1) n (by omega) [] 0
  have h0 : parseNat (natToChars n) = parseNatAux (natToChars n) 0 := by
    rw [hcons]; rfl
  rw [h0, natToChars] at *
  rw [hk]
  simp [parseNatAux]

theorem digit_ne_special (c : Char) (h : '0' ≤ c ∧ c ≤ '9') :
    c ≠ '-' ∧ c ≠ '+' ∧ c ≠ '小' ∧ c ≠ '时' ∧ c ≠ '分' ∧ c ≠ '钟' ∧ c ≠ ',' ∧
      c ≠ '"' ∧ c ≠ '\n' ∧ c ≠ '\r' := by
  obtain ⟨h1, h2⟩ := h
  refine ⟨?_, ?_, ?_, ?_, ?_, ?_, ?_, ?_, ?_, ?_⟩ <;>
    · intro hc; subst hc; revert h1 h2; decide

theorem parseInt_natToChars (n : Nat) : parseInt (natToChars n) = some (n : Int) := by
  obtain ⟨c, cs, hcons⟩ := List.exists_cons_of_ne_nil (natToChars_ne_nil n)
  have hc : '0' ≤ c ∧ c ≤ '9' := natToChars_digits n c (by rw [hcons]; simp)
  have hne := digit_ne_special c hc
  rw [hcons, parseInt, if_neg hne.1, if_neg hne.2.1, ← hcons, parseNat_natToChars]
  rfl

theorem parseInt_intRepr (i : Int) : parseInt (intRepr i) = some i := by
  unfold intRepr
  split
  · rw [parseInt, if_pos rfl, parseNat_natToChars]
    show some (-(Int.natAbs i : Int)) = some i
    congr 1
    omega
  · rw [parseInt_natToChars]
    congr 1
    omega

/-! ### Behaviour of `pysplit` on well-formed inputs -/

theorem isPrefixOf_append_self (l b : List Char) : l.isPrefixOf (l ++ b) = true := by
  rw [List.isPrefixOf_iff_prefix]
  exact List.prefix_append l b

theorem pysplitAux_fuel (sep : List Char) :
    ∀ (f1 : Nat) (s cur : List Char) (f2 : Nat), s.length < f1 → s.length < f2 →
      pysplitAux sep f1 s cur = pysplitAux sep f2 s cur := by
  intro f1
  induction f1 with
  | zero => intro s cur f2 h; omega
  | succ f1 ih =>
    intro s cur f2 h1 h2
    obtain ⟨f2, rfl⟩ : ∃ g, f2 = g + 1 := ⟨f2 - 1, by omega⟩
    cases s with
    | nil => rfl
    | cons c cs =>
      rw [pysplitAux, pysplitAux]
      split
      · next hcond =>
        have hsep : 1 ≤ sep.length := by
          cases sep with
          | nil => exact absurd rfl hcond.1
          | cons _ _ => simp
        have hlen : (List.drop sep.length (c :: cs)).length < f1 := by
          simp only [List.length_drop]
          simp only [List.length_cons] at h1 ⊢
          omega
        have hlen2 : (List.drop sep.length (c :: cs)).length < f2 := by
          simp only [List.length_drop]
          simp only [List.length_cons] at h2 ⊢
          omega
        rw [ih _ _ _ hlen hlen2]
      · have hlen : cs.length < f1 := by simp at h1; omega
        have hlen2 : cs.length < f2 := by simp at h2; omega
        rw [ih _ _ _ hlen hlen2]

theorem pysplitAux_no_sep (sh : Char) (st : List Char) :
    ∀ (fuel : Nat) (s cur : List Char), s.length < fuel → sh ∉ s →
      pysplitAux (sh :: st) fuel s cur = [cur.reverse ++ s] := by
  intro fuel
  induction fuel with
  | zero => intro s cur h; omega
  | succ fuel ih =>
    intro s cur hlen hs
    cases s with
    | nil => simp [pysplitAux]
    | cons c cs =>
      have hc : sh ≠ c := fun h => hs (h ▸ List.mem_cons_self c cs)
      rw [pysplitAux]
      rw [if_neg]
      · have : cs.length < fuel := by simp at hlen; omega
        rw [ih cs (c :: cur) this (fun h => hs (List.mem_cons_of_mem c h))]
        simp
      · rw [List.isPrefixOf_cons₂]
        simp [hc]

theorem pysplitAux_first_occurrence (sh : Char) (st : List Char) :
    ∀ (a : List Char) (fuel : Nat) (b cur : List Char),
      (a ++ (sh :: st) ++ b).length < fuel → sh ∉ a →
      pysplitAux (sh :: st) fuel (a ++ (sh :: st) ++ b) cur =
        (cur.reverse ++ a) :: pysplitAux (sh :: st) (b.length + 1) b [] := by
  intro a
  induction a with
  | nil =>
    intro fuel b cur hlen _
    obtain ⟨fuel, rfl⟩ : ∃ g, fuel = g + 1 := ⟨fuel - 1, by omega⟩
    simp only [List.nil_append] at hlen ⊢
    show pysplitAux (sh :: st) (fuel + 1) (sh :: (st ++ b)) cur = _
    rw [pysplitAux]
    rw [if_pos]
    · have hdrop : List.drop (sh :: st).length (sh :: (st ++ b)) = b := by
        have : sh :: (st ++ b) = (sh :: st) ++ b := by simp
        rw [this, List.drop_left]
      rw [hdrop]
      have hblen : b.length < fuel := by
        simp only [List.length_cons, List.length_append] at hlen
        omega
      rw [pysplitAux_fuel (sh :: st) fuel b [] (b.length + 1) hblen (by omega)]
      simp
    · constructor
      · simp
      · have : sh :: (st ++ b) = (sh :: st) ++ b := by simp
        rw [this]
        exact isPrefixOf_append_self _ _
  | cons c a' ih =>
    intro fuel b cur hlen ha
    obtain ⟨fuel, rfl⟩ : ∃ g, fuel = g + 1 := ⟨fuel - 1, by omega⟩
    have hc : sh ≠ c := fun h => ha (h ▸ List.mem_cons_self c a')
    show pysplitAux (sh :: st) (fuel + 1) (c :: (a' ++ (sh :: st) ++ b)) cur = _
    rw [pysplitAux]
    rw [if_neg]
    · have hlen' : (a' ++ (sh :: st) ++ b).length < fuel := by
        simp only [List.length_append, List.length_cons] at hlen ⊢
        omega
      rw [ih fuel b (c :: cur) hlen' (fun h => ha (List.mem_cons_of_mem c h))]
      simp
    · rw [List.isPrefixOf_cons₂]
      simp [hc]

/-- Splitting on a separator that occurs exactly once cuts the string in two. -/
theorem pysplit_single (sh : Char) (st a b : List Char) (ha : sh ∉ a) (hb : sh ∉ b) :
    pysplit (sh :: st) (a ++ (sh :: st) ++ b) = [a, b] := by
  unfold pysplit
  rw [pysplitAux_first_occurrence sh st a _ b [] (by omega) ha]
  rw [pysplitAux_no_sep sh st (b.length + 1) b [] (by omega) hb]
  simp

/-- Splitting a separator-joined list of separator-free parts recovers the parts:
Python `sep.join(parts).split(sep) == parts`. -/
theorem pysplit_joinSep (sh : Char) (st : List Char) :
    ∀ (parts : List (List Char)), parts ≠ [] → (∀ p ∈ parts, sh ∉ p) →
      pysplit (sh :: st) (joinSep (sh :: st) parts) = parts := by
  intro parts
  induction parts with
  | nil => intro h; exact absurd rfl h
  | cons p rest ih =>
    intro _ hmem
    cases rest with
    | nil =>
      show pysplit (sh :: st) p = [p]
      unfold pysplit
      rw [pysplitAux_no_sep sh st (p.length + 1) p [] (by omega)
        (hmem p (List.mem_cons_self p []))]
      simp
    | cons q rest' =>
      show pysplit (sh :: st) (p ++ (sh :: st) ++ joinSep (sh :: st) (q :: rest')) = _
      unfold pysplit
      rw [pysplitAux_first_occurrence sh st p _ _ [] (by omega)
        (hmem p (List.mem_cons_self p _))]
      have hrest := ih (by simp) (fun p' hp' => hmem p' (List.mem_cons_of_mem p hp'))
      unfold pysplit at hrest
      rw [hrest]
      simp

/-! ### The inverse parse applied to a generated label -/

theorem no_marker_in_digits (n : Nat) : '小' ∉ natToChars n ∧ '分' ∉ natToChars n := by
  constructor <;>
    · intro hc
      have h := digit_ne_special _ (natToChars_digits n _ hc)
      simp at h

theorem intRepr_nonneg (i : Int) (h : 0 ≤ i) : intRepr i = natToChars i.toNat := by
  unfold intRepr
  rw [if_neg (by omega)]

/-- The aggregator's inverse parse recovers `h * 60 + m` from the label
`{h}小时{m}分钟` whenever both components are nonnegative. -/
theorem durationMinutes_label (h m : ℤ) (hh : 0 ≤ h) (hm : 0 ≤ m) :
    durationMinutes (intRepr h ++ hourMarker ++ intRepr m ++ minuteMarker) =
      some (h * 60 + m) := by
  have hnoH : '小' ∉ intRepr h := by
    rw [intRepr_nonneg h hh]; exact (no_marker_in_digits _).1
  have hnoB : '小' ∉ intRepr m ++ minuteMarker := by
    rw [intRepr_nonneg m hm]
    intro hc
    rcases List.mem_append.1 hc with hc | hc
    · exact (no_marker_in_digits _).1 hc
    · revert hc; decide
  have hsplit : pysplit hourMarker (intRepr h ++ hourMarker ++ intRepr m ++ minuteMarker) =
      [intRepr h, intRepr m ++ minuteMarker] := by
    have hmark : hourMarker = '小' :: ['时'] := by decide
    rw [List.append_assoc (intRepr h ++ hourMarker) (intRepr m) minuteMarker, hmark]
    exact pysplit_single '小' ['时'] _ _ hnoH hnoB
  have hrepl : pyReplace minuteMarker [] (intRepr m ++ minuteMarker) = intRepr m := by
    unfold pyReplace
    have hmark : minuteMarker = '分' :: ['钟'] := by decide
    have hb : intRepr m ++ minuteMarker = intRepr m ++ ('分' :: ['钟']) ++ [] := by
      rw [← hmark]; simp
    rw [hb, hmark]
    rw [pysplit_single '分' ['钟'] _ _
      (by rw [intRepr_nonneg m hm]; exact (no_marker_in_digits _).2) (by simp)]
    simp [joinSep]
  unfold durationMinutes
  rw [hsplit]
  simp only [List.getElem?_cons_zero, List.getElem?_cons_succ]
  rw [hrepl, parseInt_intRepr, parseInt_intRepr]

/-- The distance between the floor and the rounding of a rational is at most one. -/
theorem floor_round_dist (q : ℚ) : |⌊q⌋ - round q| ≤ 1 := by
  have h1 : ⌊q⌋ ≤ round q := by
    rw [round_eq]
    exact Int.floor_mono (by linarith)
  have h2 : round q ≤ ⌊q⌋ + 1 := by
    rw [round_eq]
    calc ⌊q + 1 / 2⌋ ≤ ⌊q + 1⌋ := Int.floor_mono (by linarith)
      _ = ⌊q⌋ + 1 := Int.floor_add_one q
  rw [abs_le]
  omega

/-- C1. For end ≥ start, the aggregator's inverse parse applied to the label of
`calculate_duration` recovers `⌊total_minutes⌋`, which is within one minute of
the rounded `total_minutes`; when the elapsed seconds are minute-granular the
recovery is exact (the parse equals `total_minutes` itself and its rounding). -/
theorem c1_label_inverse_parse (s e : ℤ) (h : s ≤ e) :
    durationMinutes (calculate_duration s e).1 = some ⌊(calculate_duration s e).2⌋ ∧
    |⌊(calculate_duration s e).2⌋ - round (calculate_duration s e).2| ≤ 1 ∧
    ((e - s) % 60 = 0 →
      ((⌊(calculate_duration s e).2⌋ : ℚ) = (calculate_duration s e).2 ∧
        ⌊(calculate_duration s e).2⌋ = round (calculate_duration s e).2)) := by
  rw [calculate_duration_eq]
  dsimp only
  have ht0 : 0 ≤ e - s := by omega
  refine ⟨?_, floor_round_dist _, ?_⟩
  · rw [durationMinutes_label ((e - s) / 3600) ((e - s) / 60 - 60 * ((e - s) / 3600))
      (Int.ediv_nonneg ht0 (by norm_num)) (by omega)]
    rw [floor_int_div_sixty]
    congr 1
    ring_nf
  · intro hmod
    obtain ⟨k, hk⟩ : ∃ k, e - s = 60 * k := ⟨(e - s) / 60, by omega⟩
    have hcast : ((e - s : ℤ) : ℚ) / 60 = ((k : ℤ) : ℚ) := by
      rw [hk]
      push_cast
      ring
    rw [hcast, Int.floor_intCast, round_intCast]
    exact ⟨rfl, rfl⟩

/-- C3. For end ≥ start, `calculate_duration` returns `total_minutes` equal to the
exact elapsed time in minutes, and a label `{hours}小时{minutes}分钟` whose two
components are the floor (not the rounding) of `divmod(total_minutes, 60)`. -/
theorem c3_duration_components (s e : ℤ) (h : s ≤ e) :
    (calculate_duration s e).2 = ((e - s : ℤ) : ℚ) / 60 ∧
    (calculate_duration s e).1 =
      intRepr ⌊(calculate_duration s e).2 / 60⌋ ++ hourMarker ++
        intRepr (⌊(calculate_duration s e).2⌋ - 60 * ⌊(calculate_duration s e).2 / 60⌋) ++
        minuteMarker := by
  rw [calculate_duration_eq]
  dsimp only
  rw [floor_tm_div_sixty, floor_int_div_sixty]
  exact ⟨rfl, rfl⟩

/-- Witness for C1 at the spec's own example: 09:00 to 10:30 on the same day
(5400 elapsed seconds), a minute-granular pair. -/
theorem c1_label_inverse_parse_witness :
    (0 : ℤ) ≤ 5400 ∧
    (durationMinutes (calculate_duration 0 5400).1 = some ⌊(calculate_duration 0 5400).2⌋ ∧
      |⌊(calculate_duration 0 5400).2⌋ - round (calculate_duration 0 5400).2| ≤ 1 ∧
      (((5400 : ℤ) - 0) % 60 = 0 →
        ((⌊(calculate_duration 0 5400).2⌋ : ℚ) = (calculate_duration 0 5400).2 ∧
          ⌊(calculate_duration 0 5400).2⌋ = round (calculate_duration 0 5400).2))) :=
  ⟨by decide, c1_label_inverse_parse 0 5400 (by decide)⟩

/-- Witness for C3 at the same concrete input. -/
theorem c3_duration_components_witness :
    (0 : ℤ) ≤ 5400 ∧
    ((calculate_duration 0 5400).2 = ((5400 - 0 : ℤ) : ℚ) / 60 ∧
      (calculate_duration 0 5400).1 =
        intRepr ⌊(calculate_duration 0 5400).2 / 60⌋ ++ hourMarker ++
          intRepr (⌊(calculate_duration 0 5400).2⌋ -
            60 * ⌊(calculate_duration 0 5400).2 / 60⌋) ++ minuteMarker) :=
  ⟨by decide, c3_duration_components 0 5400 (by decide)⟩

/-! ### Claims about the create handlers -/

/-- C2, counterexample: in `part000`'s submit handler an input whose end time
(second 0) is strictly earlier than its start time (second 60) is not rejected —
a record is appended to the empty store, so the persisted set changes. -/
theorem c2_counterexample :
    datetimeCombine 0 0 < datetimeCombine 0 60 ∧
    (part000_submit [] 0 60 0 1 [] []).length = 1 ∧
    part000_submit [] 0 60 0 1 [] [] ≠ [] := by
  refine ⟨by decide, ?_, ?_⟩ <;> simp [part000_submit]

/-- C2, amended: in `app.py`'s submit handler, every create submission whose
end time is earlier than its start time is rejected with the validation error
and the record set is returned unchanged (nothing is appended or saved). -/
theorem c2_validation_rejects (store : List Record) (date startT endT severity : Int)
    (remarks location : List Char) (h : endT < startT) :
    headache_form_submit store date startT endT severity remarks location =
      (store, SubmitOutcome.validationError) := by
  simp only [headache_form_submit, datetimeCombine]
  split
  · rfl
  · next hcond => exact absurd (by omega) hcond

/-- Witness for C2's amended theorem at a concrete rejected submission. -/
theorem c2_validation_rejects_witness :
    (0 : ℤ) < 60 ∧
    headache_form_submit [] 0 60 0 1 [] [] = ([], SubmitOutcome.validationError) :=
  ⟨by decide, c2_validation_rejects [] 0 60 0 1 [] [] (by decide)⟩

/-- C10. `calculate_duration` is total: with end < start it still returns, with a
negative `total_minutes` and a label whose hour component is negative (it starts
with a minus sign); at 90 minutes reversed it returns `-2小时30分钟` and `-90`;
and `part000`'s submit handler, having no ordering check, appends a record for
every input whatsoever. -/
theorem c10_negative_duration (s e : ℤ) (h : e < s) :
    (calculate_duration s e).2 < 0 ∧
    (calculate_duration s e).1.head? = some '-' ∧
    (calculate_duration 5400 0).1 = "-2小时30分钟".toList ∧
    (calculate_duration 5400 0).2 = -90 ∧
    ∀ (store : List Record000) (date startT endT severity : Int)
      (remarks : List Char) (location : List (List Char)),
      (part000_submit store date startT endT severity remarks location).length =
        store.length + 1 := by
  refine ⟨?_, ?_, ?_, ?_, ?_⟩
  · rw [calculate_duration_eq]
    dsimp only
    have h1 : ((e - s : ℤ) : ℚ) < 0 := by
      have : (e - s : ℤ) < 0 := by omega
      exact_mod_cast this
    exact div_neg_of_neg_of_pos h1 (by norm_num)
  · rw [calculate_duration_eq]
    dsimp only
    have hneg : (e - s) / 3600 < 0 := by omega
    unfold intRepr
    rw [if_pos hneg]
    simp
  · rw [calculate_duration_eq]
    decide
  · rw [calculate_duration_eq]
    norm_num
  · intro store date startT endT severity remarks location
    simp [part000_submit]

/-- Witness for C10 with start 90 minutes after end. -/
theorem c10_negative_duration_witness :
    (0 : ℤ) < 5400 ∧ (calculate_duration 5400 0).2 < 0 :=
  ⟨by decide, (c10_negative_duration 5400 0 (by decide)).1⟩

/-! ### Claim about deletion -/

/-- C5. Deleting a valid index `i` from a set of size `n` succeeds and yields the
set of size `n - 1` holding the original elements at every index other than `i`,
re-packed contiguously in their original relative order; an invalid index fails
with `KeyError` and the handler leaves the data unchanged. -/
theorem c5_delete_record {α : Type} (data : List α) (i : Nat) :
    (i < data.length →
      drop_reset_index data i = Except.ok (delete_record data i) ∧
      (delete_record data i).length = data.length - 1 ∧
      (∀ j, j < i → (delete_record data i)[j]? = data[j]?) ∧
      (∀ j, i ≤ j → j < (delete_record data i).length →
        (delete_record data i)[j]? = data[j + 1]?)) ∧
    (data.length ≤ i →
      drop_reset_index data i = Except.error DropError.keyError ∧
      delete_record data i = data) := by
  constructor
  · intro hi
    have hok : drop_reset_index data i = Except.ok (data.take i ++ data.drop (i + 1)) := by
      unfold drop_reset_index
      rw [if_pos hi]
    have hdel : delete_record data i = data.take i ++ data.drop (i + 1) := by
      unfold delete_record
      rw [hok]
    have hmin : i ⊓ data.length = i := by
      rw [min_eq_left]
      omega
    refine ⟨by rw [hok, hdel], ?_, ?_, ?_⟩
    · rw [hdel]
      simp only [List.length_append, List.length_take, List.length_drop, hmin]
      omega
    · intro j hj
      rw [hdel, List.getElem?_append]
      rw [if_pos (by simp only [List.length_take, hmin]; omega)]
      rw [List.getElem?_take, if_pos hj]
    · intro j hij hj
      rw [hdel] at hj ⊢
      simp only [List.length_append, List.length_take, List.length_drop, hmin] at hj
      rw [List.getElem?_append]
      rw [if_neg (by simp only [List.length_take, hmin]; omega)]
      rw [List.getElem?_drop]
      congr 1
      simp only [List.length_take, hmin]
      omega
  · intro hi
    have herr : drop_reset_index data i = Except.error DropError.keyError := by
      unfold drop_reset_index
      rw [if_neg (by omega)]
    refine ⟨herr, ?_⟩
    unfold delete_record
    rw [herr]

/-- Witness for C5: deleting index 1 from a three-element set, and attempting
index 5. -/
theorem c5_delete_record_witness :
    ((1 : Nat) < 3 ∧ (delete_record [10, 20, 30] 1).length = 3 - 1) ∧
    ((3 : Nat) ≤ 5 ∧ delete_record ([10, 20, 30] : List Int) 5 = [10, 20, 30]) :=
  ⟨⟨by decide, ((c5_delete_record [10, 20, 30] 1).1 (by decide)).2.1⟩,
   ⟨by decide, ((c5_delete_record [10, 20, 30] 5).2 (by decide)).2⟩⟩

/-! ### Claim about the severity series -/

/-- C9, counterexample: the severity chart data of a store whose rows are not in
date order is not date-sorted — the code emits the `(Date, Severity)` pairs in
row order and applies no sort. -/
theorem c9_counterexample :
    severitySeries [⟨2, 0, 0, [], 1, [], [], 0⟩, ⟨1, 0, 0, [], 5, [], [], 0⟩] =
      [(2, 1), (1, 5)] ∧
    ¬ List.Chain' (fun p q : Int × Int => p.1 ≤ q.1)
      (severitySeries [⟨2, 0, 0, [], 1, [], [], 0⟩, ⟨1, 0, 0, [], 5, [], [], 0⟩]) := by
  refine ⟨rfl, ?_⟩
  intro hchain
  have h12 : (2 : Int) ≤ 1 := (List.chain'_cons.1 hchain).1
  omega

/-- C9, amended: the severity-series report produces exactly the
`(Date, Severity)` pairs of the record set, one per record in row order, with no
grouping or aggregation; any date ordering is left to the charting layer. -/
theorem c9_series_row_order (store : List Record) :
    severitySeries store = store.map (fun r => (r.date, r.severity)) ∧
    (severitySeries store).length = store.length ∧
    ∀ i : Nat, (severitySeries store)[i]? = store[i]?.map fun r => (r.date, r.severity) := by
  refine ⟨rfl, by simp [severitySeries], fun i => ?_⟩
  simp [severitySeries, List.getElem?_map]

/-! ### Claim about the empty-store load path -/

/-- C8, counterexample: `part000`'s `load_data` answers a missing file with the
seven-column schema, not the canonical eight-column schema named by the claim. -/
theorem c8_counterexample :
    part000_load_data none = Except.ok ⟨part000Columns, []⟩ ∧
    part000Columns ≠ canonicalColumns := by
  exact ⟨rfl, by decide⟩

/-- C8, amended: when the persisted file is absent, `app.py`'s `load_data`
returns (it never raises) the empty table whose columns are exactly the
canonical eight-column schema; `part000`'s `load_data` also returns an empty
table but with its seven-column schema lacking `Total Minutes`. -/
theorem c8_load_missing_file :
    load_data none = Except.ok ⟨canonicalColumns, []⟩ ∧
    canonicalColumns =
      ["Date".toList, "Start Time".toList, "End Time".toList, "Duration".toList,
       "Severity".toList, "Remarks".toList, "Location".toList, "Total Minutes".toList] ∧
    canonicalColumns.length = 8 ∧
    part000_load_data none = Except.ok ⟨part000Columns, []⟩ :=
  ⟨rfl, rfl, by decide, rfl⟩

/-! ### Claim about the location distribution -/

/-- C7. The location report splits each record's Location on `', '` and counts
one occurrence per resulting label: a record whose Location joins `k`
comma-free labels adds exactly its per-label multiplicities to the buckets, and
concretely `左侧, 右侧` adds one count to `左侧` and one to `右侧` while the
combined string itself gets no bucket. -/
theorem c7_location_explode :
    (∀ (labels : List (List Char)) (r : Record) (rest : List Record),
      r.location = joinSep ", ".toList labels → labels ≠ [] →
      (∀ l ∈ labels, ',' ∉ l) →
      ∀ lbl, locationCount (r :: rest) lbl = labels.count lbl + locationCount rest lbl) ∧
    locationCount [⟨0, 0, 0, [], 1, [], "左侧, 右侧".toList, 0⟩] "左侧".toList = 1 ∧
    locationCount [⟨0, 0, 0, [], 1, [], "左侧, 右侧".toList, 0⟩] "右侧".toList = 1 ∧
    locationCount [⟨0, 0, 0, [], 1, [], "左侧, 右侧".toList, 0⟩] "左侧, 右侧".toList = 0 := by
  refine ⟨?_, by decide, by decide, by decide⟩
  intro labels r rest hloc hne hnc lbl
  have hsep : (", ".toList : List Char) = ',' :: [' '] := by decide
  have hsplit : pysplit ", ".toList r.location = labels := by
    rw [hloc, hsep]
    exact pysplit_joinSep ',' [' '] labels hne hnc
  simp only [locationCount, locationExplode, List.map_cons, List.flatten_cons,
    List.count_append, hsplit]

/-- Witness for C7 at the two-label record of the spec's example. -/
theorem c7_location_explode_witness :
    ("左侧, 右侧".toList = joinSep ", ".toList ["左侧".toList, "右侧".toList] ∧
      (["左侧".toList, "右侧".toList] : List (List Char)) ≠ [] ∧
      (∀ l ∈ (["左侧".toList, "右侧".toList] : List (List Char)), ',' ∉ l)) ∧
    locationCount [⟨0, 0, 0, [], 1, [], "左侧, 右侧".toList, 0⟩] "左侧".toList =
      (["左侧".toList, "右侧".toList] : List (List Char)).count "左侧".toList +
        locationCount [] "左侧".toList :=
  ⟨⟨by decide, by decide, by decide⟩,
   c7_location_explode.1 ["左侧".toList, "右侧".toList]
     ⟨0, 0, 0, [], 1, [], "左侧, 右侧".toList, 0⟩ [] (by decide) (by decide) (by decide)
     "左侧".toList⟩

/-! ### Claim about the duration histogram -/

theorem durationBinCount_cons (r : Record) (rest : List Record) (lbl : List Char) :
    durationBinCount (r :: rest) lbl =
      durationBinCount rest lbl + (if recordDurationBin r = some lbl then 1 else 0) := by
  unfold durationBinCount
  rw [List.filter_cons]
  by_cases h : recordDurationBin r = some lbl
  · simp [h]
  · simp [h]

theorem durationBinCount_total (store : List Record)
    (h : ∀ r ∈ store, ∃ m, durationMinutes r.duration = some m ∧ 0 ≤ m) :
    (binLabels.map (durationBinCount store)).sum = store.length := by
  induction store with
  | nil => simp [binLabels, durationBinCount]
  | cons r rest ih =>
    obtain ⟨m, hm, hm0⟩ := h r (List.mem_cons_self r rest)
    have hrest := ih fun r' hr' => h r' (List.mem_cons_of_mem r hr')
    have hrec : recordDurationBin r = durationBin m := by
      unfold recordDurationBin
      rw [hm]
      rfl
    simp only [binLabels, List.map_cons, List.map_nil, List.sum_cons, List.sum_nil]
      at hrest ⊢
    rw [durationBinCount_cons, durationBinCount_cons, durationBinCount_cons,
      durationBinCount_cons, hrec]
    rcases lt_or_le m 30 with h30 | h30
    · have hb : durationBin m = some "0-30分钟".toList := by
        unfold durationBin
        rw [if_pos ⟨hm0, h30⟩]
      rw [hb, if_pos rfl, if_neg (by decide), if_neg (by decide), if_neg (by decide)]
      simp only [List.length_cons]
      omega
    rcases lt_or_le m 60 with h60 | h60
    · have hb : durationBin m = some "30-60分钟".toList := by
        unfold durationBin
        rw [if_neg (by omega), if_pos ⟨h30, h60⟩]
      rw [hb, if_neg (by decide), if_pos rfl, if_neg (by decide), if_neg (by decide)]
      simp only [List.length_cons]
      omega
    rcases lt_or_le m 120 with h120 | h120
    · have hb : durationBin m = some "60-120分钟".toList := by
        unfold durationBin
        rw [if_neg (by omega), if_neg (by omega), if_pos ⟨h60, h120⟩]
      rw [hb, if_neg (by decide), if_neg (by decide), if_pos rfl, if_neg (by decide)]
      simp only [List.length_cons]
      omega
    · have hb : durationBin m = some "120分钟以上".toList := by
        unfold durationBin
        rw [if_neg (by omega), if_neg (by omega), if_neg (by omega), if_pos h120]
      rw [hb, if_neg (by decide), if_neg (by decide), if_neg (by decide), if_pos rfl]
      simp only [List.length_cons]
      omega

/-- C6. The duration report re-derives minutes from the label and buckets them
into the half-open intervals [0,30), [30,60), [60,120), [120,∞) with the four
fixed labels — each nonnegative minute value landing in exactly one bucket — and
counts rows per bucket (the bucket counts of a store of well-formed records sum
to its row count); in particular a 90-minute record falls in `60-120分钟`. -/
theorem c6_duration_bin_report :
    (∀ m : ℤ, 0 ≤ m →
      (durationBin m = some "0-30分钟".toList ↔ 0 ≤ m ∧ m < 30) ∧
      (durationBin m = some "30-60分钟".toList ↔ 30 ≤ m ∧ m < 60) ∧
      (durationBin m = some "60-120分钟".toList ↔ 60 ≤ m ∧ m < 120) ∧
      (durationBin m = some "120分钟以上".toList ↔ 120 ≤ m) ∧
      (∃! lbl, durationBin m = some lbl)) ∧
    (∀ store : List Record,
      (∀ r ∈ store, ∃ m, durationMinutes r.duration = some m ∧ 0 ≤ m) →
      (binLabels.map (durationBinCount store)).sum = store.length) ∧
    durationMinutes "1小时30分钟".toList = some 90 ∧
    durationBin 90 = some "60-120分钟".toList := by
  refine ⟨?_, durationBinCount_total, by decide, by decide⟩
  intro m hm0
  rcases lt_or_le m 30 with h30 | h30
  · have hb : durationBin m = some "0-30分钟".toList := by
      unfold durationBin
      rw [if_pos ⟨hm0, h30⟩]
    exact ⟨iff_of_true hb ⟨hm0, h30⟩,
      iff_of_false (by rw [hb]; decide) (by omega),
      iff_of_false (by rw [hb]; decide) (by omega),
      iff_of_false (by rw [hb]; decide) (by omega),
      ⟨_, hb, fun y hy => by rw [hb] at hy; exact (Option.some.inj hy).symm⟩⟩
  rcases lt_or_le m 60 with h60 | h60
  · have hb : durationBin m = some "30-60分钟".toList := by
      unfold durationBin
      rw [if_neg (by omega), if_pos ⟨h30, h60⟩]
    exact ⟨iff_of_false (by rw [hb]; decide) (by omega),
      iff_of_true hb ⟨h30, h60⟩,
      iff_of_false (by rw [hb]; decide) (by omega),
      iff_of_false (by rw [hb]; decide) (by omega),
      ⟨_, hb, fun y hy => by rw [hb] at hy; exact (Option.some.inj hy).symm⟩⟩
  rcases lt_or_le m 120 with h120 | h120
  · have hb : durationBin m = some "60-120分钟".toList := by
      unfold durationBin
      rw [if_neg (by omega), if_neg (by omega), if_pos ⟨h60, h120⟩]
    exact ⟨iff_of_false (by rw [hb]; decide) (by omega),
      iff_of_false (by rw [hb]; decide) (by omega),
      iff_of_true hb ⟨h60, h120⟩,
      iff_of_false (by rw [hb]; decide) (by omega),
      ⟨_, hb, fun y hy => by rw [hb] at hy; exact (Option.some.inj hy).symm⟩⟩
  · have hb : durationBin m = some "120分钟以上".toList := by
      unfold durationBin
      rw [if_neg (by omega), if_neg (by omega), if_neg (by omega), if_pos h120]
    exact ⟨iff_of_false (by rw [hb]; decide) (by omega),
      iff_of_false (by rw [hb]; decide) (by omega),
      iff_of_false (by rw [hb]; decide) (by omega),
      iff_of_true hb h120,
      ⟨_, hb, fun y hy => by rw [hb] at hy; exact (Option.some.inj hy).symm⟩⟩

/-- Witness for C6 at 90 minutes and at the singleton store holding the
`1小时30分钟` record. -/
theorem c6_duration_bin_report_witness :
    ((0 : ℤ) ≤ 90 ∧ (durationBin 90 = some "60-120分钟".toList ↔
      60 ≤ (90 : ℤ) ∧ (90 : ℤ) < 120)) ∧
    (binLabels.map
        (durationBinCount [⟨0, 0, 0, "1小时30分钟".toList, 1, [], [], 0⟩])).sum =
      ([⟨0, 0, 0, "1小时30分钟".toList, 1, [], [], 0⟩] : List Record).length :=
  ⟨⟨by decide, (c6_duration_bin_report.1 90 (by decide)).2.2.1⟩,
   c6_duration_bin_report.2.1 [⟨0, 0, 0, "1小时30分钟".toList, 1, [], [], 0⟩]
     (fun r hr => by
       rw [List.mem_singleton] at hr
       subst hr
       exact ⟨90, by decide, by decide⟩)⟩

/-! ### CSV codec correctness -/

/-- The remainders at which a cell parse must stop: end of row or end of input. -/
def delimiterStart (r : List Char) : Prop :=
  r = [] ∨ (∃ r', r = ',' :: r') ∨ (∃ r', r = '\n' :: r')

theorem parseUnquoted_append (cell : List Char) :
    ∀ r : List Char, (∀ c ∈ cell, ¬(c = ',' ∨ c = '\n')) → delimiterStart r →
      parseUnquoted (cell ++ r) = (cell, r) := by
  induction cell with
  | nil =>
    intro r _ hr
    rcases hr with rfl | ⟨r', rfl⟩ | ⟨r', rfl⟩
    · rfl
    · rw [List.nil_append, parseUnquoted, if_pos (Or.inl rfl)]
    · rw [List.nil_append, parseUnquoted, if_pos (Or.inr rfl)]
  | cons c cs ih =>
    intro r hc hr
    rw [List.cons_append, parseUnquoted,
      if_neg (hc c (List.mem_cons_self c cs)),
      ih r (fun c' hc' => hc c' (List.mem_cons_of_mem c hc')) hr]

theorem parseQuoted_append (cell : List Char) :
    ∀ r : List Char, r.head? ≠ some '"' →
      parseQuoted (escapeQuotes cell ++ ('"' :: r)) = (cell, r) := by
  induction cell with
  | nil =>
    intro r hr
    rw [escapeQuotes, List.nil_append]
    cases r with
    | nil => rfl
    | cons c2 r' =>
      have hc2 : ¬(c2 = '"') := fun h => hr (by rw [h]; rfl)
      simp [parseQuoted, hc2]
  | cons c cs ih =>
    intro r hr
    by_cases hc : c = '"'
    · subst hc
      rw [escapeQuotes, if_pos rfl, List.cons_append, List.cons_append]
      simp [parseQuoted, ih r hr]
    · rw [escapeQuotes, if_neg hc, List.cons_append, parseQuoted.eq_def]
      dsimp only
      rw [if_neg hc, ih r hr]

theorem parseField_encodeCell (cell r : List Char) (hr : delimiterStart r) :
    parseField (encodeCell cell ++ r) = (cell, r) := by
  have hrq : r.head? ≠ some '"' := by
    rcases hr with rfl | ⟨r', rfl⟩ | ⟨r', rfl⟩ <;> simp
  unfold encodeCell
  split
  · next hq =>
    have hassoc : ('"' :: (escapeQuotes cell ++ ['"'])) ++ r =
        '"' :: (escapeQuotes cell ++ ('"' :: r)) := by simp
    rw [hassoc, parseField, if_pos rfl, parseQuoted_append cell r hrq]
  · next hq =>
    have hmem : ∀ c ∈ cell, ¬(c = ',' ∨ c = '"' ∨ c = '\n' ∨ c = '\r') := by
      intro c hc hbad
      exact hq (List.any_eq_true.2 ⟨c, hc, decide_eq_true hbad⟩)
    cases cell with
    | nil =>
      rcases hr with rfl | ⟨r', rfl⟩ | ⟨r', rfl⟩
      · rfl
      · rw [List.nil_append, parseField, if_neg (by decide), parseUnquoted,
          if_pos (Or.inl rfl)]
      · rw [List.nil_append, parseField, if_neg (by decide), parseUnquoted,
          if_pos (Or.inr rfl)]
    | cons c cs =>
      have hcq : ¬(c = '"') := fun h =>
        hmem c (List.mem_cons_self c cs) (Or.inr (Or.inl h))
      rw [List.cons_append, parseField, if_neg hcq, ← List.cons_append,
        parseUnquoted_append (c :: cs) r
          (fun c' hc' hbad =>
            hmem c' hc' (hbad.elim Or.inl fun h => Or.inr (Or.inr (Or.inl h)))) hr]

theorem parseRowAux_encodeRow :
    ∀ (row : List (List Char)) (fuel : Nat) (r : List Char), row ≠ [] →
      row.length ≤ fuel →
      parseRowAux fuel (encodeRow row ++ ('\n' :: r)) = (row, r) := by
  intro row
  induction row with
  | nil => intro fuel r h; exact absurd rfl h
  | cons cell rest ih =>
    intro fuel r _ hfuel
    obtain ⟨f, rfl⟩ : ∃ f, fuel = f + 1 := ⟨fuel - 1, by simp at hfuel; omega⟩
    cases rest with
    | nil =>
      have henc : encodeRow [cell] = encodeCell cell := rfl
      rw [henc, parseRowAux, parseField_encodeCell cell ('\n' :: r)
        (Or.inr (Or.inr ⟨r, rfl⟩))]
      dsimp only
      rw [if_neg (by decide : ¬('\n' = ','))]
    | cons cell2 rest' =>
      have henc : encodeRow (cell :: cell2 :: rest') ++ ('\n' :: r) =
          encodeCell cell ++ (',' :: (encodeRow (cell2 :: rest') ++ ('\n' :: r))) := by
        show (encodeCell cell ++ [','] ++ joinSep [','] ((cell2 :: rest').map encodeCell))
            ++ ('\n' :: r) = _
        simp [encodeRow]
      rw [henc, parseRowAux, parseField_encodeCell cell _ (Or.inr (Or.inl ⟨_, rfl⟩))]
      dsimp only
      rw [if_pos rfl, ih f r (by simp) (by simp at hfuel ⊢; omega)]

theorem encodeRow_length (row : List (List Char)) :
    row.length ≤ (encodeRow row).length + 1 := by
  induction row with
  | nil => simp
  | cons cell rest ih =>
    cases rest with
    | nil => simp [encodeRow, joinSep]
    | cons cell2 rest' =>
      have henc : encodeRow (cell :: cell2 :: rest') =
          encodeCell cell ++ [','] ++ encodeRow (cell2 :: rest') := rfl
      rw [henc]
      simp only [List.length_append, List.length_cons] at ih ⊢
      omega

theorem csvEncode_length (rows : List (List (List Char))) :
    rows.length ≤ (csvEncode rows).length := by
  induction rows with
  | nil => simp [csvEncode]
  | cons row rest ih =>
    have henc : csvEncode (row :: rest) = (encodeRow row ++ ['\n']) ++ csvEncode rest := by
      simp [csvEncode]
    rw [henc]
    simp only [List.length_append, List.length_cons] at ih ⊢
    omega

theorem parseRowsAux_csvEncode :
    ∀ (rows : List (List (List Char))) (fuel : Nat), rows.length < fuel →
      (∀ row ∈ rows, 2 ≤ row.length) →
      parseRowsAux fuel (csvEncode rows) = rows := by
  intro rows
  induction rows with
  | nil =>
    intro fuel _ _
    obtain ⟨f, rfl⟩ : ∃ f, fuel = f + 1 := ⟨fuel - 1, by omega⟩
    rfl
  | cons row rest ih =>
    intro fuel hfuel hall
    obtain ⟨f, rfl⟩ : ∃ f, fuel = f + 1 := ⟨fuel - 1, by omega⟩
    have hrow := hall row (List.mem_cons_self row rest)
    have henc : csvEncode (row :: rest) = encodeRow row ++ ('\n' :: csvEncode rest) := by
      simp [csvEncode]
    rw [henc]
    cases hs : encodeRow row ++ ('\n' :: csvEncode rest) with
    | nil => exact absurd hs (by simp)
    | cons c cs =>
      rw [parseRowsAux, ← hs]
      have hrowlen : row.length ≤ (encodeRow row ++ ('\n' :: csvEncode rest)).length + 1 := by
        have h1 := encodeRow_length row
        simp only [List.length_append, List.length_cons]
        omega
      rw [parseRowAux_encodeRow row _ (csvEncode rest) (by rintro rfl; simp at hrow) hrowlen]
      dsimp only
      rw [if_neg (by rintro rfl; simp at hrow)]
      rw [ih f (by simp at hfuel ⊢; omega) (fun r hr => hall r (List.mem_cons_of_mem row hr))]

set_option maxRecDepth 8192 in
/-- C4, counterexample: the round-trip is not exact at the value level. A
record set whose Remarks cell is the empty string (the `st.text_area` default)
and whose Severity cell is the text `3` reloads with Remarks (and the empty
Total Minutes cell) turned into `NaN` and Severity turned into the integer 3 —
`read_csv`'s missing-value filter and dtype inference change the cells. -/
theorem c4_counterexample :
    load_data (some (save_data (DataFrame.mk canonicalColumns
      [[CellValue.str "2024-01-01".toList, CellValue.str "2024-01-01 09:00".toList,
        CellValue.str "2024-01-01 10:30".toList, CellValue.str "1小时30分钟".toList,
        CellValue.str "3".toList, CellValue.str "".toList,
        CellValue.str "左侧".toList, CellValue.str "".toList]]))) =
      Except.ok (DataFrame.mk canonicalColumns
        [[CellValue.str "2024-01-01".toList, CellValue.str "2024-01-01 09:00".toList,
          CellValue.str "2024-01-01 10:30".toList, CellValue.str "1小时30分钟".toList,
          CellValue.intVal 3, CellValue.nan,
          CellValue.str "左侧".toList, CellValue.nan]]) ∧
    load_data (some (save_data (DataFrame.mk canonicalColumns
      [[CellValue.str "2024-01-01".toList, CellValue.str "2024-01-01 09:00".toList,
        CellValue.str "2024-01-01 10:30".toList, CellValue.str "1小时30分钟".toList,
        CellValue.str "3".toList, CellValue.str "".toList,
        CellValue.str "左侧".toList, CellValue.str "".toList]]))) ≠
      Except.ok (DataFrame.mk canonicalColumns
        [[CellValue.str "2024-01-01".toList, CellValue.str "2024-01-01 09:00".toList,
          CellValue.str "2024-01-01 10:30".toList, CellValue.str "1小时30分钟".toList,
          CellValue.str "3".toList, CellValue.str "".toList,
          CellValue.str "左侧".toList, CellValue.str "".toList]]) := by
  have h1 : load_data (some (save_data (DataFrame.mk canonicalColumns
      [[CellValue.str "2024-01-01".toList, CellValue.str "2024-01-01 09:00".toList,
        CellValue.str "2024-01-01 10:30".toList, CellValue.str "1小时30分钟".toList,
        CellValue.str "3".toList, CellValue.str "".toList,
        CellValue.str "左侧".toList, CellValue.str "".toList]]))) =
      Except.ok (DataFrame.mk canonicalColumns
        [[CellValue.str "2024-01-01".toList, CellValue.str "2024-01-01 09:00".toList,
          CellValue.str "2024-01-01 10:30".toList, CellValue.str "1小时30分钟".toList,
          CellValue.intVal 3, CellValue.nan,
          CellValue.str "左侧".toList, CellValue.nan]]) := by rfl
  refine ⟨h1, ?_⟩
  rw [h1]
  intro h
  exact absurd (Except.ok.inj h) (by decide)

/-- C4, amended: saving a table with the canonical schema and reloading always
preserves the header, the row count and the row order, and yields in each cell
exactly `read_csv`'s NA-and-dtype conversion of the saved cell text (the CSV
text itself — including non-ASCII text, separators and quotes — survives the
byte-level round-trip); `load(save(X)) = X` holds precisely when `X` is
invariant under that conversion, and fails e.g. for empty or `NA` text cells
(reloaded as `NaN`) and numeric-looking text cells (reloaded as numbers). -/
theorem c4_save_load_roundtrip (df : DataFrame)
    (hcols : df.columns = canonicalColumns)
    (hrows : ∀ r ∈ df.rows, r.length = canonicalColumns.length) :
    load_data (some (save_data df)) =
      Except.ok ⟨df.columns, readValues (df.rows.map (List.map cellWrite))⟩ ∧
    (readValues (df.rows.map (List.map cellWrite)) = df.rows →
      load_data (some (save_data df)) = Except.ok df) ∧
    (readValues (df.rows.map (List.map cellWrite))).length = df.rows.length ∧
    (∀ row ∈ readValues (df.rows.map (List.map cellWrite)),
      row.length = canonicalColumns.length) := by
  have hload : load_data (some (save_data df)) =
      Except.ok ⟨df.columns, readValues (df.rows.map (List.map cellWrite))⟩ := by
    unfold save_data load_data
    dsimp only
    have hbom : dropBom (bomChar :: csvEncode (df.columns :: df.rows.map (List.map cellWrite))) =
        csvEncode (df.columns :: df.rows.map (List.map cellWrite)) := by
      rw [dropBom, if_pos rfl]
    rw [hbom]
    have hall : ∀ row ∈ df.columns :: df.rows.map (List.map cellWrite), 2 ≤ row.length := by
      intro row hrow
      rcases List.mem_cons.1 hrow with h | h
      · subst h; rw [hcols]; decide
      · obtain ⟨r, hr, rfl⟩ := List.mem_map.1 h
        rw [List.length_map, hrows r hr]
        decide
    have hparse : csvParse (csvEncode (df.columns :: df.rows.map (List.map cellWrite))) =
        df.columns :: df.rows.map (List.map cellWrite) := by
      unfold csvParse
      refine parseRowsAux_csvEncode _ _ ?_ hall
      have := csvEncode_length (df.columns :: df.rows.map (List.map cellWrite))
      omega
    rw [hparse]
  refine ⟨hload, ?_, by simp [readValues], ?_⟩
  · intro hinv
    rw [hload, hinv]
  · intro row hrow
    obtain ⟨r, hr, rfl⟩ := List.mem_map.1 hrow
    obtain ⟨r0, hr0, rfl⟩ := List.mem_map.1 hr
    rw [List.length_mapIdx, List.length_map, hrows r0 hr0]

/-- Witness for C4's amended theorem at a one-row table whose text cells
exercise non-ASCII text, an embedded separator and an embedded quote, and are
all invariant under the NA-and-dtype conversion (no missing-value sentinels, no
numeric-looking text), so the frame reloads exactly. -/
theorem c4_save_load_roundtrip_witness :
    ((DataFrame.mk canonicalColumns
        [[CellValue.str "2024-01-01".toList, CellValue.str "2024-01-01 09:00".toList,
          CellValue.str "2024-01-01 10:30".toList, CellValue.str "1小时30分钟".toList,
          CellValue.str "级3".toList, CellValue.str "头痛, \"严重\"".toList,
          CellValue.str "左侧, 右侧".toList, CellValue.str "90分".toList]]).columns =
        canonicalColumns ∧
      (∀ r ∈ (DataFrame.mk canonicalColumns
        [[CellValue.str "2024-01-01".toList, CellValue.str "2024-01-01 09:00".toList,
          CellValue.str "2024-01-01 10:30".toList, CellValue.str "1小时30分钟".toList,
          CellValue.str "级3".toList, CellValue.str "头痛, \"严重\"".toList,
          CellValue.str "左侧, 右侧".toList, CellValue.str "90分".toList]]).rows,
        r.length = canonicalColumns.length) ∧
      readValues ((DataFrame.mk canonicalColumns
        [[CellValue.str "2024-01-01".toList, CellValue.str "2024-01-01 09:00".toList,
          CellValue.str "2024-01-01 10:30".toList, CellValue.str "1小时30分钟".toList,
          CellValue.str "级3".toList, CellValue.str "头痛, \"严重\"".toList,
          CellValue.str "左侧, 右侧".toList, CellValue.str "90分".toList]]).rows.map
            (List.map cellWrite)) =
        (DataFrame.mk canonicalColumns
        [[CellValue.str "2024-01-01".toList, CellValue.str "2024-01-01 09:00".toList,
          CellValue.str "2024-01-01 10:30".toList, CellValue.str "1小时30分钟".toList,
          CellValue.str "级3".toList, CellValue.str "头痛, \"严重\"".toList,
          CellValue.str "左侧, 右侧".toList, CellValue.str "90分".toList]]).rows) ∧
    load_data (some (save_data (DataFrame.mk canonicalColumns
        [[CellValue.str "2024-01-01".toList, CellValue.str "2024-01-01 09:00".toList,
          CellValue.str "2024-01-01 10:30".toList, CellValue.str "1小时30分钟".toList,
          CellValue.str "级3".toList, CellValue.str "头痛, \"严重\"".toList,
          CellValue.str "左侧, 右侧".toList, CellValue.str "90分".toList]]))) =
      Except.ok (DataFrame.mk canonicalColumns
        [[CellValue.str "2024-01-01".toList, CellValue.str "2024-01-01 09:00".toList,
          CellValue.str "2024-01-01 10:30".toList, CellValue.str "1小时30分钟".toList,
          CellValue.str "级3".toList, CellValue.str "头痛, \"严重\"".toList,
          CellValue.str "左侧, 右侧".toList, CellValue.str "90分".toList]]) :=
  ⟨⟨rfl, by decide, by decide⟩,
   (c4_save_load_roundtrip _ rfl (by decide)).2.1 (by decide)⟩

end Headache
